import Mathlib

/-!
Verification of the spec-kitty work-package orchestration engine against its
natural-language specification.

Each Python function under scrutiny is shallowly embedded as an executable
Lean definition; stateful operations (file system, lock files) are embedded
as explicit state passing over small state records.  Modules of the repository
whose implementation files are absent from the source tree (the orchestrator
scheduler, review-outcome parser, retry controller, workspace branching policy
and multi-parent merge coordinator — only their tests ship) are modelled from
the specification text, as indicated in their doc comments.
-/

namespace SpecKitty

/-! ## String helpers

Substring containment, modelling Python's `in` operator on `str`, and
lowercasing, modelling `str.lower()` for the ASCII range the markers use. -/

/-- Boolean substring test: `pat` occurs contiguously inside `hay`.
Mirrors Python's `pat in hay`. -/
def containsSub (hay pat : String) : Bool :=
  decide (pat.data <:+: hay.data)

/-- Lowercase a string character-wise, mirroring Python's `str.lower()`
on the ASCII inputs used by the review markers. -/
def lowerStr (s : String) : String :=
  ⟨s.data.map Char.toLower⟩

/-! ## API-key strength validation

Embeds `validate_api_key_strength` from
`src/specify_cli/mcp/auth/api_key.py` (lines 44-65): a key shorter than
`MIN_API_KEY_LENGTH = 32` code points is rejected as too short; otherwise a
key with fewer than 10 distinct characters is rejected as low-entropy;
otherwise validation succeeds. -/

/-- Errors raised by `validate_api_key_strength`, carrying the same data the
Python exception constructors receive. -/
inductive APIKeyError where
  | tooShort (length : Nat)
  | lowEntropy (uniqueChars : Nat)
  deriving DecidableEq, Repr

/-- `MIN_API_KEY_LENGTH` from `api_key.py`. -/
def MIN_API_KEY_LENGTH : Nat := 32

/-- `len(set(api_key))`: the number of distinct characters of the key. -/
def uniqueCharCount (s : String) : Nat :=
  s.data.dedup.length

/-- Embedding of `validate_api_key_strength` (`api_key.py` 44-65). -/
def validate_api_key_strength (api_key : String) : Except APIKeyError Unit :=
  if api_key.length < MIN_API_KEY_LENGTH then
    .error (.tooShort api_key.length)
  else if uniqueCharCount api_key < 10 then
    .error (.lowEntropy (uniqueCharCount api_key))
  else
    .ok ()

/-! ## Atomic file write

Embeds `atomic_write` from `src/specify_cli/mcp/session/persistence.py`
(lines 8-59).  The relevant file-system state is the content of the target
file and of the (single, fresh) temporary file; each fallible OS step is
represented by an injection point saying which step, if any, raises. -/

/-- Which step of `atomic_write` raises, if any.  `mkstemp` fails before the
`try` block; the remaining four fail inside it and run the cleanup handler. -/
inductive WriteFailure where
  | noFailure
  | atMkstemp
  | atWrite
  | atFsync
  | atClose
  | atReplace
  deriving DecidableEq, Repr

/-- File-system state seen by `atomic_write`: content of the target path and
content of the temporary file, when they exist. -/
structure WriteFs where
  target : Option String
  temp : Option String
  deriving DecidableEq, Repr

/-- Embedding of `atomic_write` (`persistence.py` 8-59).  Returns the
propagated outcome together with the final file-system state.  On the failure
paths the cleanup handler closes the descriptor (errors swallowed) and
unlinks the temporary file, then re-raises. -/
def atomic_write (content : String) (failAt : WriteFailure) (fs : WriteFs) :
    Except Unit Unit × WriteFs :=
  match failAt with
  | .atMkstemp =>
    -- mkstemp raises before the try block: no temp file was created.
    (.error (), fs)
  | .atWrite =>
    -- temp created empty, os.write raises, cleanup unlinks the temp file.
    (.error (), { fs with temp := none })
  | .atFsync =>
    -- content written to the temp file, fsync raises, cleanup unlinks it.
    (.error (), { fs with temp := none })
  | .atClose =>
    (.error (), { fs with temp := none })
  | .atReplace =>
    -- os.replace raises: target untouched, cleanup unlinks the temp file.
    (.error (), { fs with temp := none })
  | .noFailure =>
    -- write, fsync, close, then os.replace renames the temp over the target.
    (.ok (), { target := some content, temp := none })

/-! ## Review Outcome Parser

The module `specify_cli.orchestrator.integration` ships only with its tests
(`tests/specify_cli/orchestrator/test_real_smoke.py` 229-275), so the parser
is modelled from the specification (spec §4.5). -/

/-- Result of one external agent invocation, as the tests construct it:
`InvocationResult(success, exit_code, stdout, stderr, duration_seconds)`.
The parser consumes the exit code and the textual output. -/
structure InvocationResult where
  exit_code : Int
  stdout : String
  stderr : String
  deriving DecidableEq, Repr

/-- Review classification outcome. -/
inductive Outcome where
  | approved
  | rejected
  | errorOutcome
  deriving DecidableEq, Repr

/-- Parsed review outcome: the classification and the extracted feedback. -/
structure ReviewOutcome where
  outcome : Outcome
  feedback : Option String
  deriving DecidableEq, Repr

/-- Approval markers from spec §4.5, in lowercase for the case-insensitive
substring match. -/
def approvalMarkers : List String :=
  ["approved", "lgtm", "review passed", "no issues found"]

/-- Rejection markers from spec §4.5, in lowercase. -/
def rejectionMarkers : List String :=
  ["rejected", "changes requested", "needs work", "issues found"]

/-- Modelled from the spec: case-insensitive approval-marker match of
spec §4.5, part of the absent `specify_cli.orchestrator.integration`. -/
def hasApprovalMarker (r : InvocationResult) : Bool :=
  approvalMarkers.any (fun m => containsSub (lowerStr r.stdout) m)

/-- Modelled from the spec: case-insensitive rejection-marker match of
spec §4.5, part of the absent `specify_cli.orchestrator.integration`. -/
def hasRejectionMarker (r : InvocationResult) : Bool :=
  rejectionMarkers.any (fun m => containsSub (lowerStr r.stdout) m)

/-- Modelled from the spec: `parse_review_outcome` of the absent
`specify_cli.orchestrator.integration` module.  Spec §4.5: approval markers
are matched first (case-insensitive substring), then rejection markers; with
no marker the exit code decides — 0 is approved, non-zero is an error, never
a rejection.  Rejection populates `feedback` with the agent's raw output. -/
def parse_review_outcome (r : InvocationResult) : ReviewOutcome :=
  if hasApprovalMarker r then
    { outcome := .approved, feedback := none }
  else if hasRejectionMarker r then
    { outcome := .rejected, feedback := some r.stdout }
  else if r.exit_code = 0 then
    { outcome := .approved, feedback := none }
  else
    { outcome := .errorOutcome, feedback := none }

/-! ## Execution state machine and dependency-graph readiness

The modules `specify_cli.orchestrator.scheduler`, `.state` and `.config` are
absent from the source tree; only their tests ship
(`tests/specify_cli/orchestrator/test_real_smoke.py` 278-354).  The data
model and transitions are therefore modelled from spec §3 and §4.1/§4.4,
shaped to the concrete calls the tests make. -/

/-- `WPStatus` from the absent `specify_cli.orchestrator.config` (spec §3):
the per-run execution status of one work package. -/
inductive WPStatus where
  | planned
  | doing
  | forReview
  | review
  | rework
  | done
  | failed
  deriving DecidableEq, Repr

/-- `WPExecution` from the absent `specify_cli.orchestrator.state`
(spec §3): one work package's execution record within a run. -/
structure WPExecution where
  wp_id : String
  status : WPStatus
  implementation_retries : Nat
  review_feedback : Option String
  last_error : Option String
  deriving DecidableEq, Repr

/-- Dependency graph as the tests build it: an association list from WP id to
the list of its dependency ids. -/
def Graph : Type := List (String × List String)

/-- First-match association-list lookup (Python dict access). -/
def lookupKey {α : Type} (k : String) : List (String × α) → Option α
  | [] => none
  | (k', v) :: rest => if k = k' then some v else lookupKey k rest

/-- `OrchestrationRun` from the absent `specify_cli.orchestrator.state`
(spec §3): the mutable run record, with `work_packages` as a partial map. -/
structure OrchestrationRun where
  run_id : String
  feature_slug : String
  work_packages : String → Option WPExecution

/-- A status is schedulable: PLANNED and REWORK are eligible (spec §4.1,
REWORK re-enterable per §3). -/
def statusReady (s : WPStatus) : Bool :=
  match s with
  | .planned => true
  | .rework => true
  | _ => false

/-- One dependency is satisfied: its `WPExecution` exists and is DONE. -/
def depDone (run : OrchestrationRun) (d : String) : Bool :=
  match run.work_packages d with
  | some w => decide (w.status = WPStatus.done)
  | none => false

/-- A WP is ready: present in the graph and the run, PLANNED or REWORK, and
every dependency DONE. -/
def wpReady (g : Graph) (run : OrchestrationRun) (id : String) : Bool :=
  match lookupKey id g, run.work_packages id with
  | some deps, some wp => statusReady wp.status && deps.all (depDone run)
  | _, _ => false

/-- Modelled from the spec: `get_ready_wps(graph, run)` of the absent
`specify_cli.orchestrator.scheduler` module (spec §4.1) — every WP whose
status is PLANNED or REWORK and whose dependencies are all DONE.  It is a
pure function: neither the graph nor the run is mutated. -/
def get_ready_wps (g : Graph) (run : OrchestrationRun) : List String :=
  (g.map Prod.fst).filter (wpReady g run)

/-- Default `max_review_cycles` (spec §4.4). -/
def DEFAULT_MAX_REVIEW_CYCLES : Nat := 5

/-- The terminal-retry error text, as asserted by
`test_max_retries_prevents_infinite_loop`. -/
def exceededMsg (n : Nat) : String :=
  "Exceeded max review cycles (" ++ toString n ++ ")"

/-- Modelled from the spec: the REWORK entry transition of the retry
controller (spec §4.4, absent `specify_cli.orchestrator` module): a rejection
increments `implementation_retries` and stores the feedback; once the count
reaches `max_review_cycles` the WP becomes FAILED with
`last_error = "Exceeded max review cycles (N)"`. -/
def reworkTransition (maxCycles : Nat) (feedback : String)
    (wp : WPExecution) : WPExecution :=
  let retries := wp.implementation_retries + 1
  if maxCycles ≤ retries then
    { wp with
      status := .failed
      implementation_retries := retries
      review_feedback := some feedback
      last_error := some (exceededMsg maxCycles) }
  else
    { wp with
      status := .rework
      implementation_retries := retries
      review_feedback := some feedback }

/-- A review decision delivered by the environment (agent plus parser). -/
inductive ReviewDecision where
  | approve
  | reject (feedback : String)

/-- Modelled from the spec: processing one scheduled WP to its next persisted
status — approval reaches DONE, rejection takes the REWORK/FAILED transition
(spec §4.4). -/
def processWp (maxCycles : Nat) (d : ReviewDecision)
    (wp : WPExecution) : WPExecution :=
  match d with
  | .approve => { wp with status := .done }
  | .reject fb => reworkTransition maxCycles fb wp

/-- Replace one WP's execution record in the run. -/
def updateWp (run : OrchestrationRun) (id : String)
    (wp : WPExecution) : OrchestrationRun :=
  { run with
    work_packages := fun k => if k = id then some wp else run.work_packages k }

/-- Modelled from the spec: one scheduler iteration (spec §2 control flow) —
pick a ready WP, drive it through implement/review, persist the transition.
Only WPs in the ready set are ever selected. -/
def stepRun (g : Graph) (env : String → ReviewDecision) (maxCycles : Nat)
    (run : OrchestrationRun) : OrchestrationRun :=
  match get_ready_wps g run with
  | [] => run
  | id :: _ =>
    match run.work_packages id with
    | some wp => updateWp run id (processWp maxCycles (env id) wp)
    | none => run

/-- Iterated scheduler steps. -/
def iterRun (g : Graph) (env : String → ReviewDecision) (maxCycles : Nat) :
    Nat → OrchestrationRun → OrchestrationRun
  | 0, run => run
  | n + 1, run => iterRun g env maxCycles n (stepRun g env maxCycles run)

/-! ## Resource locking

Embeds `ResourceLock` from `src/specify_cli/mcp/session/locking.py`.  The
state of one resource's lock file is its existence, its mtime, and which
process (if any) holds the `filelock` flock on it.  Times are integers
(seconds).  The underlying `FileLock` comes from the third-party `filelock`
library, absent from the tree: on Unix it creates the lock file (truncating,
which refreshes the mtime) and takes an OS `flock`; on release it unlocks
and closes the descriptor but does not unlink the file — the repository's
own test records this ("Lock file may still exist but should be
releasable", `tests/mcp/test_locking.py` line 57). -/

/-- The lock file on disk: its mtime and the pid holding the flock, if
any. -/
structure LockFileInfo where
  mtime : Int
  holder : Option Nat
  deriving DecidableEq, Repr

/-- File-system state for one resource id: the lock file, when it exists. -/
structure LockFs where
  file : Option LockFileInfo
  deriving DecidableEq, Repr

/-- `ResourceLock` metadata fields (`locking.py` 26-47). -/
structure ResourceLock where
  resource_id : String
  lock_file : String
  timeout_seconds : Int
  acquired_at : Option Int
  owner_pid : Option Nat
  deriving DecidableEq, Repr

/-- Whether the flock is currently held by someone. -/
def lockHeld (fs : LockFs) : Bool :=
  match fs.file with
  | some f => f.holder.isSome
  | none => false

/-- Embedding of `ResourceLock.release_if_stale` (`locking.py` 150-178):
when the lock file exists and its age `now - mtime` strictly exceeds
`2 * timeout_seconds`, unlink it and return True; otherwise return False and
leave the file alone.  The unlink is modelled as succeeding (the swallowed
`OSError` branch is an environment double-fault outside this model). -/
def release_if_stale (now : Int) (lock : ResourceLock) (fs : LockFs) :
    Bool × LockFs :=
  match fs.file with
  | none => (false, fs)
  | some f =>
    if now - f.mtime > 2 * lock.timeout_seconds then (true, ⟨none⟩)
    else (false, fs)

/-- The part of the `LockTimeout` message preceding the timeout value
(`locking.py` 223-228). -/
def lockTimeoutMsgPre (id : String) : String :=
  "Resource " ++ id ++
    " is locked. Another process is using this resource. Retry in a moment or increase timeout (current: "

/-- The `LockTimeout` message raised by `acquire` (`locking.py` 223-228). -/
def lockTimeoutMsg (id : String) (t : Int) : String :=
  lockTimeoutMsgPre id ++ toString t ++ "s)."

/-- Embedding of `ResourceLock.acquire` (`locking.py` 180-228) up to its
decision at timeout expiry: purge a stale lock file, then attempt the
`FileLock`; if the flock is still held when the timeout elapses the
`FilelockTimeout` is converted to `LockTimeout`; otherwise the lock file is
(re)created with a fresh mtime, the flock is taken, and `acquired_at` and
`owner_pid` are recorded. -/
def acquire (now : Int) (pid : Nat) (lock : ResourceLock) (fs : LockFs) :
    Except String ResourceLock × LockFs :=
  let fs1 := (release_if_stale now lock fs).2
  match fs1.file with
  | some f =>
    match f.holder with
    | some _ =>
      (.error (lockTimeoutMsg lock.resource_id lock.timeout_seconds), fs1)
    | none =>
      (.ok { lock with acquired_at := some now, owner_pid := some pid },
        ⟨some ⟨now, some pid⟩⟩)
  | none =>
    (.ok { lock with acquired_at := some now, owner_pid := some pid },
      ⟨some ⟨now, some pid⟩⟩)

/-- Release of the `FileLock`: the flock is dropped; the file itself stays
on disk (filelock's Unix behavior, as the repository's test notes). -/
def releaseLock (fs : LockFs) : LockFs :=
  ⟨fs.file.map (fun f => ⟨f.mtime, none⟩)⟩

/-- The `with lock.acquire():` context-manager round trip: acquire, run the
protected body, and release on every exit path — normal or exceptional —
propagating the body's outcome.  `LockTimeout` from acquisition is surfaced
on the left. -/
def withLock {ε α : Type} (now : Int) (pid : Nat) (lock : ResourceLock)
    (fs : LockFs) (body : Except ε α) : Except (String ⊕ ε) α × LockFs :=
  match acquire now pid lock fs with
  | (.error msg, fs1) => (.error (.inl msg), fs1)
  | (.ok _, fs1) =>
    match body with
    | .ok a => (.ok a, releaseLock fs1)
    | .error e => (.error (.inr e), releaseLock fs1)

/-! ## Workspace Manager branching policy

`ensure_workspace`'s implementation (`implement.py`, with
`specify_cli.core.dependency_resolver`) is absent from the source tree —
only its tests ship (`tests/unit/test_implement_merged_deps.py`).  The
branching policy is modelled from spec §4.2. -/

/-- Task-Store lane of a WP (spec §3/§6), with "unknown" for a missing
record or missing lane field. -/
inductive Lane where
  | planned
  | doing
  | forReview
  | done
  | unknown
  deriving DecidableEq, Repr

/-- Environment `ensure_workspace` consults: each dependency's lane and
whether its workspace already exists. -/
structure WsEnv where
  lane : String → Lane
  workspaceExists : String → Bool

/-- Typed errors of the workspace policy (spec §7). -/
inductive WsError where
  | dependencyWorkspaceMissing (dep : String)
  | dependencyNotReady (deps : List String)
  | invalidExistingWorkspace
  deriving DecidableEq, Repr

/-- The per-WP workspace branch name `{feature_slug}-{wp_id}` (spec §3). -/
def workspaceBranch (slug wp : String) : String :=
  slug ++ "-" ++ wp

/-- A created workspace: its branch name and the selected base branch. -/
structure Workspace where
  name : String
  base_branch : String
  deriving DecidableEq, Repr

/-- Modelled from the spec: `ensure_workspace` of the absent `implement.py`
(spec §4.2) — zero dependencies base on the target branch; a single
dependency bases on the target branch when its lane is done, else on the
dependency's own workspace branch, failing with `DependencyWorkspaceMissing`
when that workspace does not exist; two or more dependencies base on the
target branch when all lanes are done, else the operation fails with
`DependencyNotReady` listing the non-done dependency ids (the merge
coordinator delegation is modelled separately). -/
def ensure_workspace (env : WsEnv) (slug wpid : String) (deps : List String)
    (target : String) : Except WsError Workspace :=
  match deps with
  | [] => .ok ⟨workspaceBranch slug wpid, target⟩
  | [d] =>
    if env.lane d = Lane.done then
      .ok ⟨workspaceBranch slug wpid, target⟩
    else if env.workspaceExists d then
      .ok ⟨workspaceBranch slug wpid, workspaceBranch slug d⟩
    else
      .error (.dependencyWorkspaceMissing d)
  | _ =>
    if deps.all (fun d => decide (env.lane d = Lane.done)) then
      .ok ⟨workspaceBranch slug wpid, target⟩
    else
      .error (.dependencyNotReady
        (deps.filter (fun d => ! decide (env.lane d = Lane.done))))

/-! ## Merge Coordinator

`create_multi_parent_base` lives in the absent
`specify_cli.core.multi_parent_merge`; only its tests ship
(`tests/unit/test_multi_parent_merge_empty_branches.py`).  Modelled from
spec §4.3 and §3: the repository is abstracted as, per branch, the list of
(path, content) changes it carries beyond the target branch, plus an
abstract content-addressing function for the resulting merge commit. -/

/-- Abstract git repository: the changes each branch has beyond the target
branch, and a content hash for the merged result. -/
structure RepoModel where
  changes : String → List (String × String)
  commitSha : List (String × String) → String

/-- A branch with zero commits beyond the target carries no changes. -/
def emptyBranch (repo : RepoModel) (b : String) : Bool :=
  (repo.changes b).isEmpty

/-- Two change sets merge cleanly when no path is given different content. -/
def conflictFreePair (b1 b2 : List (String × String)) : Bool :=
  b1.all (fun x => b2.all (fun y => decide (x.1 = y.1 → x.2 = y.2)))

/-- Merge one branch's changes into the accumulated changes, failing on a
content conflict. -/
def mergeOne (acc b : List (String × String)) :
    Option (List (String × String)) :=
  if conflictFreePair b acc then some (acc ++ b) else none

/-- Pairwise merge of all dependency branches; a conflict aborts the whole
operation (spec §4.3). -/
def mergeAll (acc : List (String × String)) :
    List (List (String × String)) → Option (List (String × String))
  | [] => some acc
  | b :: rest =>
    match mergeOne acc b with
    | some acc2 => mergeAll acc2 rest
    | none => none

/-- `MergeBaseResult` (spec §3). -/
structure MergeBaseResult where
  branch_name : String
  commit_sha : Option String
  success : Bool
  error : Option String
  warnings : List String
  deriving DecidableEq, Repr

/-- The non-fatal warning recorded for a commit-less dependency branch
(spec §4.3), naming the branch. -/
def emptyBranchWarning (b : String) : String :=
  "Dependency branch " ++ b ++
    " has no commits beyond target — may indicate incomplete or uncommitted work; it contributes nothing to the merge"

/-- Modelled from the spec: `create_multi_parent_base` of the absent
`specify_cli.core.multi_parent_merge` (spec §4.3) — warn (non-fatally) for
every dependency branch with no commits beyond the target, merge all
dependency branches pairwise into the deterministically named branch
`{feature_slug}-{wp_id}-merge-base`, and abort with `success = False` on a
content conflict. -/
def create_multi_parent_base (repo : RepoModel) (slug wpid : String)
    (deps : List String) : MergeBaseResult :=
  let branches := deps.map (workspaceBranch slug)
  let warnings := (branches.filter (emptyBranch repo)).map emptyBranchWarning
  let name := workspaceBranch slug wpid ++ "-merge-base"
  match mergeAll [] (branches.map repo.changes) with
  | some merged =>
    { branch_name := name, commit_sha := some (repo.commitSha merged),
      success := true, error := none, warnings := warnings }
  | none =>
    { branch_name := name, commit_sha := none, success := false,
      error := some "merge conflict", warnings := warnings }

/-! ## Conversation state serialization

Embeds `ConversationState.to_json` / `from_json` from
`src/specify_cli/mcp/session/state.py` (lines 102-149) at the JSON-document
level: `json.dumps` / `json.loads` form a faithful inverse pair on
string-keyed JSON data, so the two functions are modelled on a JSON value
AST.  `pathlib.Path` is modelled as its parsed form — a root flag plus
normalized components — with `str()` and the `Path()` constructor embedded
explicitly. -/

/-- A JSON value, as passed to `json.dumps` / returned by `json.loads`. -/
inductive JVal where
  | jnull
  | jbool (b : Bool)
  | jnum (n : Int)
  | jstr (s : String)
  | jarr (xs : List JVal)
  | jobj (fields : List (String × JVal))

/-- A `pathlib.PurePosixPath` value: whether it is absolute, and its parsed
components.  Python keeps paths in this normalized form. -/
structure PyPath where
  absolute : Bool
  parts : List String

/-- A well-formed path component, as `pathlib` parsing guarantees:
non-empty, not the "." pseudo-component, and slash-free. -/
def validPart (s : String) : Bool :=
  (!decide (s = "")) && (!decide (s = ".")) && (!decide ('/' ∈ s.data))

/-- Well-formedness invariant every `pathlib` path value satisfies. -/
def pathWF (p : PyPath) : Bool :=
  p.parts.all validPart

/-- The character-level splitter behind path parsing: one step of splitting
on a slash. -/
def splitStep (c : Char) (acc : List (List Char)) : List (List Char) :=
  match acc with
  | [] => [[]]
  | a :: as => if c = '/' then [] :: a :: as else (c :: a) :: as

/-- Split a character list on slashes (always at least one chunk). -/
def splitSlash (cs : List Char) : List (List Char) :=
  cs.foldr splitStep [[]]

/-- Join chunks with slashes: the inverse of `splitSlash` on slash-free
chunks. -/
def joinSlash : List (List Char) → List Char
  | [] => []
  | [p] => p
  | p :: q :: rest => p ++ '/' :: joinSlash (q :: rest)

/-- `str(path)`: "/" or "." for empty paths, else the slash-joined parts
with a root prefix. -/
def strOfPath (p : PyPath) : String :=
  match p.parts with
  | [] => if p.absolute then "/" else "."
  | _ =>
    (if p.absolute then "/" else "") ++ ⟨joinSlash (p.parts.map String.data)⟩

/-- `Path(s)`: parse a string into a normalized path — split on slashes and
drop empty and "." components, per `pathlib` normalization. -/
def pathOfString (s : String) : PyPath :=
  { absolute :=
      match s.data with
      | c :: _ => decide (c = '/')
      | [] => false
    parts := ((splitSlash s.data).map (fun cs => (⟨cs⟩ : String))).filter
      (fun c => c != "" && c != ".") }

/-- `ConversationState` (`state.py` 11-29), with fields at their annotated
types; `Any`-valued JSON data is carried as `JVal`. -/
structure ConversationState where
  session_id : String
  project_path : PyPath
  workflow : String
  phase : String
  questions_answered : List (String × JVal)
  questions_pending : List String
  accumulated_context : List (String × JVal)
  created_at : String
  updated_at : String

/-- Embedding of `ConversationState.to_json` (`state.py` 102-120): the JSON
document built from the nine fields, with `project_path` converted to a
string. -/
def to_json (s : ConversationState) : JVal :=
  .jobj [
    ("session_id", .jstr s.session_id),
    ("project_path", .jstr (strOfPath s.project_path)),
    ("workflow", .jstr s.workflow),
    ("phase", .jstr s.phase),
    ("questions_answered", .jobj s.questions_answered),
    ("questions_pending", .jarr (s.questions_pending.map JVal.jstr)),
    ("accumulated_context", .jobj s.accumulated_context),
    ("created_at", .jstr s.created_at),
    ("updated_at", .jstr s.updated_at)]

/-- Decode a JSON array of strings (the `questions_pending` list). -/
def strListOf : List JVal → Option (List String)
  | [] => some []
  | .jstr s :: rest => (strListOf rest).map (fun l => s :: l)
  | _ => none

/-- Embedding of `ConversationState.from_json` (`state.py` 122-149): the six
scalar fields are required (`KeyError` when absent), the three collections
default to empty via `.get`; `project_path` is rebuilt with `Path(...)`.
Shape mismatches, which Python would surface as later type errors, are
reported as errors. -/
def from_json (j : JVal) : Except String ConversationState :=
  match j with
  | .jobj data =>
    match lookupKey "session_id" data, lookupKey "project_path" data,
        lookupKey "workflow" data, lookupKey "phase" data,
        lookupKey "created_at" data, lookupKey "updated_at" data with
    | some (.jstr sid), some (.jstr pp), some (.jstr wf), some (.jstr ph),
      some (.jstr ca), some (.jstr ua) =>
      let qa : Option (List (String × JVal)) :=
        match lookupKey "questions_answered" data with
        | some (.jobj f) => some f
        | none => some []
        | _ => none
      let qp : Option (List String) :=
        match lookupKey "questions_pending" data with
        | some (.jarr xs) => strListOf xs
        | none => some []
        | _ => none
      let ac : Option (List (String × JVal)) :=
        match lookupKey "accumulated_context" data with
        | some (.jobj f) => some f
        | none => some []
        | _ => none
      match qa, qp, ac with
      | some qa, some qp, some ac =>
        .ok ⟨sid, pathOfString pp, wf, ph, qa, qp, ac, ca, ua⟩
      | _, _, _ => .error "collection field has wrong shape"
    | _, _, _, _, _, _ => .error "KeyError: required field missing"
  | _ => .error "not a JSON object"

end SpecKitty

namespace SpecKitty

theorem data_append (a b : String) : (a ++ b).data = a.data ++ b.data := rfl

theorem string_ext {a b : String} (h : a.data = b.data) : a = b := by
  cases a; cases b; exact congrArg String.mk h

theorem containsSub_iff (hay pat : String) :
    containsSub hay pat = true ↔ pat.data <:+: hay.data := by
  simp [containsSub]

theorem containsSub_of_middle (a b c : String) :
    containsSub (a ++ b ++ c) b = true := by
  rw [containsSub_iff, data_append, data_append]
  exact List.infix_append a.data b.data c.data

theorem lowerStr_data (s : String) :
    (lowerStr s).data = s.data.map Char.toLower := rfl

theorem lowerStr_eq_empty {s : String} (h : lowerStr s = "") : s = "" := by
  have hd : (lowerStr s).data = [] := by rw [h]
  rw [lowerStr_data, List.map_eq_nil_iff] at hd
  cases s with
  | mk d => rw [show d = [] from hd]

/-- C10: `validate_api_key_strength(k)` raises `APIKeyTooShortError` exactly
when `len(k) < 32`; otherwise raises `APIKeyLowEntropyError` exactly when `k`
has fewer than 10 distinct characters; otherwise returns normally, so every
accepted key has length at least 32 and at least 10 unique characters. -/
theorem api_key_strength_characterization (k : String) :
    (validate_api_key_strength k = .error (.tooShort k.length) ↔
      k.length < MIN_API_KEY_LENGTH) ∧
    (MIN_API_KEY_LENGTH ≤ k.length →
      (validate_api_key_strength k = .error (.lowEntropy (uniqueCharCount k)) ↔
        uniqueCharCount k < 10)) ∧
    (validate_api_key_strength k = .ok () ↔
      MIN_API_KEY_LENGTH ≤ k.length ∧ 10 ≤ uniqueCharCount k) := by
  unfold validate_api_key_strength
  refine ⟨?_, ?_, ?_⟩
  · split
    · simp [*]
    · split <;> simp <;> omega
  · intro hlen
    have hnot : ¬ k.length < MIN_API_KEY_LENGTH := by omega
    simp only [if_neg hnot]
    split <;> simp <;> omega
  · split
    · constructor
      · intro h; cases h
      · rintro ⟨h1, _⟩; omega
    · split
      · constructor
        · intro h; cases h
        · rintro ⟨_, h2⟩; omega
      · constructor
        · intro _; omega
        · intro _; rfl

/-- Witness for C10: the theorem applied at a concrete 32-character key with
at least 10 distinct characters, discharging the length hypothesis. -/
theorem api_key_strength_characterization_witness :
    validate_api_key_strength "abcdefghij0123456789ABCDEFGHIJ!?" = .ok () := by
  have h := api_key_strength_characterization "abcdefghij0123456789ABCDEFGHIJ!?"
  exact h.2.2.mpr (by decide)

/-- C8: every call of `atomic_write` either leaves the target holding exactly
the full new content with the temporary file gone (success path: temp file in
the same directory, fsync, rename over the target), or — when any step
fails — leaves the target's prior content unchanged, removes the temporary
file, and propagates the exception, so a crash mid-write never corrupts the
target.  The `mkstemp`-generated temporary name is fresh, hence `fs.temp =
none` on entry. -/
theorem atomic_write_atomicity (content : String) (failAt : WriteFailure)
    (fs : WriteFs) (hfresh : fs.temp = none) :
    (failAt = .noFailure →
      atomic_write content failAt fs =
        (.ok (), { target := some content, temp := none })) ∧
    (failAt ≠ .noFailure →
      (atomic_write content failAt fs).1 = .error () ∧
      (atomic_write content failAt fs).2.target = fs.target ∧
      (atomic_write content failAt fs).2.temp = none) := by
  constructor
  · intro h; subst h; rfl
  · intro h
    cases failAt with
    | noFailure => exact absurd rfl h
    | atMkstemp => exact ⟨rfl, rfl, hfresh⟩
    | atWrite => exact ⟨rfl, rfl, rfl⟩
    | atFsync => exact ⟨rfl, rfl, rfl⟩
    | atClose => exact ⟨rfl, rfl, rfl⟩
    | atReplace => exact ⟨rfl, rfl, rfl⟩

theorem rejection_markers_nonempty :
    ∀ m ∈ rejectionMarkers, m.data ≠ [] := by decide

theorem lookupKey_mem {α : Type} {k : String} {v : α} :
    ∀ {l : List (String × α)}, lookupKey k l = some v → k ∈ l.map Prod.fst := by
  intro l
  induction l with
  | nil => intro h; cases h
  | cons p rest ih =>
    intro h
    rw [lookupKey] at h
    by_cases he : k = p.1
    · simp [he]
    · rw [if_neg he] at h
      simp [ih h]

theorem statusReady_iff (s : WPStatus) :
    statusReady s = true ↔ s = .planned ∨ s = .rework := by
  cases s <;> simp [statusReady]

theorem depDone_iff (run : OrchestrationRun) (d : String) :
    depDone run d = true ↔
      ∃ w, run.work_packages d = some w ∧ w.status = .done := by
  unfold depDone
  cases h : run.work_packages d <;> simp

theorem wpReady_iff (g : Graph) (run : OrchestrationRun) (id : String) :
    wpReady g run id = true ↔
      ∃ deps wp, lookupKey id g = some deps ∧
        run.work_packages id = some wp ∧
        (wp.status = .planned ∨ wp.status = .rework) ∧
        ∀ d ∈ deps, ∃ w, run.work_packages d = some w ∧ w.status = .done := by
  unfold wpReady
  cases hg : lookupKey id g with
  | none => simp [hg]
  | some deps =>
    cases hr : run.work_packages id with
    | none => simp [hg, hr]
    | some wp =>
      simp [hg, hr, Bool.and_eq_true, statusReady_iff, List.all_eq_true,
        depDone_iff]

theorem mem_get_ready_iff (g : Graph) (run : OrchestrationRun) (id : String) :
    id ∈ get_ready_wps g run ↔
      id ∈ g.map Prod.fst ∧ wpReady g run id = true := by
  simp [get_ready_wps, List.mem_filter]

theorem not_ready_of_failed {g : Graph} {run : OrchestrationRun} {id : String}
    {wp : WPExecution} (hr : run.work_packages id = some wp)
    (hs : wp.status = .failed) : id ∉ get_ready_wps g run := by
  intro hmem
  have h := ((mem_get_ready_iff g run id).mp hmem).2
  rw [wpReady_iff] at h
  obtain ⟨deps, wp', _, hr', hst, _⟩ := h
  rw [hr] at hr'
  cases hr'
  rcases hst with h1 | h1 <;> rw [hs] at h1 <;> cases h1

theorem stepRun_preserves_failed {g : Graph} {env : String → ReviewDecision}
    {maxCycles : Nat} {run : OrchestrationRun} {id : String}
    {wp : WPExecution} (hr : run.work_packages id = some wp)
    (hs : wp.status = .failed) :
    (stepRun g env maxCycles run).work_packages id = some wp := by
  unfold stepRun
  cases hready : get_ready_wps g run with
  | nil => exact hr
  | cons id0 rest =>
    have hid0 : id0 ∈ get_ready_wps g run := by
      rw [hready]; exact List.mem_cons_self _ _
    have hne : id ≠ id0 := by
      rintro rfl
      exact not_ready_of_failed hr hs hid0
    dsimp only
    cases h0 : run.work_packages id0 with
    | none => exact hr
    | some wp0 =>
      dsimp only
      simp only [updateWp, if_neg hne]
      exact hr

theorem iterRun_preserves_failed {g : Graph} {env : String → ReviewDecision}
    {maxCycles : Nat} {id : String} {wp : WPExecution}
    (hs : wp.status = .failed) :
    ∀ (n : Nat) (run : OrchestrationRun),
      run.work_packages id = some wp →
      (iterRun g env maxCycles n run).work_packages id = some wp := by
  intro n
  induction n with
  | zero => intro run hr; exact hr
  | succ m ih =>
    intro run hr
    exact ih _ (stepRun_preserves_failed hr hs)

theorem exceededMsg_contains (mc : Nat) :
    containsSub (exceededMsg mc) "Exceeded max review cycles" = true := by
  rw [containsSub_iff]
  unfold exceededMsg
  rw [data_append, data_append]
  have hsplit : ("Exceeded max review cycles (" : String).data =
      ("Exceeded max review cycles" : String).data ++ (" (" : String).data := by
    decide
  rw [hsplit, List.append_assoc, List.append_assoc]
  exact (List.prefix_append _ _).isInfix

/-- C1: `get_ready_wps(graph, run)` returns exactly the set of WP ids in the
graph whose execution status is PLANNED or REWORK and all of whose
dependencies have status DONE; a WP with no dependencies is ready whenever it
is PLANNED or REWORK.  The function is pure, so neither the graph nor the run
state is mutated. -/
theorem get_ready_wps_characterization (g : Graph) (run : OrchestrationRun)
    (id : String) :
    (id ∈ get_ready_wps g run ↔
      ∃ deps wp, lookupKey id g = some deps ∧
        run.work_packages id = some wp ∧
        (wp.status = .planned ∨ wp.status = .rework) ∧
        ∀ d ∈ deps, ∃ w, run.work_packages d = some w ∧ w.status = .done) ∧
    (∀ wp, lookupKey id g = some [] → run.work_packages id = some wp →
      wp.status = .planned ∨ wp.status = .rework →
      id ∈ get_ready_wps g run) := by
  constructor
  · rw [mem_get_ready_iff, wpReady_iff]
    constructor
    · rintro ⟨_, h⟩; exact h
    · intro h
      refine ⟨?_, h⟩
      obtain ⟨deps, wp, hg, _⟩ := h
      exact lookupKey_mem hg
  · intro wp hg hr hs
    rw [mem_get_ready_iff]
    exact ⟨lookupKey_mem hg,
      (wpReady_iff g run id).mpr ⟨[], wp, hg, hr, hs, by simp⟩⟩

/-- Witness for C1: the scenario of `test_rework_status_is_startable` — a
dependency-free WP in REWORK with one retry is in the ready set. -/
theorem get_ready_wps_characterization_witness :
    "WP01" ∈ get_ready_wps [("WP01", [])]
      ⟨"test", "test-feature", fun k =>
        if k = "WP01" then
          some ⟨"WP01", .rework, 1, some "Please add tests", none⟩
        else none⟩ := by
  exact (get_ready_wps_characterization [("WP01", [])]
      ⟨"test", "test-feature", fun k =>
        if k = "WP01" then
          some ⟨"WP01", .rework, 1, some "Please add tests", none⟩
        else none⟩ "WP01").2
    ⟨"WP01", .rework, 1, some "Please add tests", none⟩
    (by simp [lookupKey]) (by simp) (Or.inr rfl)

/-- C2: a WPExecution whose `implementation_retries` has reached
`max_review_cycles` transitions, on the next REWORK entry, to FAILED with
`last_error` containing "Exceeded max review cycles"; from then on the WP
never appears in any ready-set computation of the run — FAILED is terminal
under arbitrarily many scheduler steps. -/
theorem max_review_cycles_terminal (maxCycles : Nat) (fb : String)
    (wp : WPExecution) (h : maxCycles ≤ wp.implementation_retries) :
    (reworkTransition maxCycles fb wp).status = .failed ∧
    (reworkTransition maxCycles fb wp).last_error =
      some (exceededMsg maxCycles) ∧
    containsSub (exceededMsg maxCycles) "Exceeded max review cycles" = true ∧
    ∀ (g : Graph) (env : String → ReviewDecision) (run : OrchestrationRun)
      (id : String) (n : Nat),
      run.work_packages id = some (reworkTransition maxCycles fb wp) →
      (iterRun g env maxCycles n run).work_packages id =
          some (reworkTransition maxCycles fb wp) ∧
      id ∉ get_ready_wps g (iterRun g env maxCycles n run) := by
  have hle : maxCycles ≤ wp.implementation_retries + 1 :=
    Nat.le_trans h (Nat.le_succ _)
  have hst : (reworkTransition maxCycles fb wp).status = .failed := by
    unfold reworkTransition
    simp [hle]
  refine ⟨hst, ?_, exceededMsg_contains maxCycles, ?_⟩
  · unfold reworkTransition
    simp [hle]
  · intro g env run id n hr
    refine ⟨iterRun_preserves_failed hst n run hr, ?_⟩
    exact not_ready_of_failed (iterRun_preserves_failed hst n run hr) hst

theorem acquire_of_free (now : Int) (pid : Nat) (lock : ResourceLock)
    (fs : LockFs) (h : lockHeld fs = false) :
    acquire now pid lock fs =
      (.ok { lock with acquired_at := some now, owner_pid := some pid },
        ⟨some ⟨now, some pid⟩⟩) := by
  obtain ⟨file⟩ := fs
  cases file with
  | none => rfl
  | some f =>
    obtain ⟨m, holder⟩ := f
    cases holder with
    | some q => simp [lockHeld] at h
    | none =>
      unfold acquire release_if_stale
      dsimp only
      by_cases hst : now - m > 2 * lock.timeout_seconds
      · rw [if_pos hst]
      · rw [if_neg hst]

theorem lockTimeoutMsg_contains_id (id : String) (t : Int) :
    containsSub (lockTimeoutMsg id t) id = true := by
  rw [containsSub_iff]
  have h1 : id.data <:+: (lockTimeoutMsgPre id).data := by
    rw [← containsSub_iff]
    exact containsSub_of_middle "Resource " id
      " is locked. Another process is using this resource. Retry in a moment or increase timeout (current: "
  have h2 : (lockTimeoutMsgPre id).data <:+: (lockTimeoutMsg id t).data := by
    unfold lockTimeoutMsg
    rw [data_append, data_append, List.append_assoc]
    exact (List.prefix_append _ _).isInfix
  exact h1.trans h2

theorem lockTimeoutMsg_contains_timeout (id : String) (t : Int) :
    containsSub (lockTimeoutMsg id t) (toString t) = true :=
  containsSub_of_middle (lockTimeoutMsgPre id) (toString t) "s)."

/-- C5: on `acquire()`, a lock file strictly older than `2 × timeout_seconds`
is removed by the staleness check before the acquisition attempt and the
acquisition of that resource id then succeeds immediately, while a lock file
whose age is at most `2 × timeout_seconds` is never removed —
`release_if_stale` returns False and leaves the state unchanged. -/
theorem stale_purge_before_acquire (lock : ResourceLock) (fs : LockFs)
    (now : Int) (pid : Nat) (f : LockFileInfo) (hf : fs.file = some f) :
    (now - f.mtime > 2 * lock.timeout_seconds →
      release_if_stale now lock fs = (true, ⟨none⟩) ∧
      acquire now pid lock fs =
        (.ok { lock with acquired_at := some now, owner_pid := some pid },
          ⟨some ⟨now, some pid⟩⟩)) ∧
    (now - f.mtime ≤ 2 * lock.timeout_seconds →
      release_if_stale now lock fs = (false, fs)) := by
  obtain ⟨file⟩ := fs
  have hfile : file = some f := hf
  subst hfile
  constructor
  · intro hstale
    constructor
    · unfold release_if_stale
      dsimp only
      rw [if_pos hstale]
    · unfold acquire release_if_stale
      dsimp only
      rw [if_pos hstale]
  · intro hfresh
    have hnot : ¬ now - f.mtime > 2 * lock.timeout_seconds := not_lt.mpr hfresh
    unfold release_if_stale
    dsimp only
    rw [if_neg hnot]

/-- Witness for C5: a lock file of age 3 with timeout 1 (stale threshold 2)
is purged and the next acquisition succeeds; the theorem is applied at this
concrete input with its hypotheses discharged. -/
theorem stale_purge_before_acquire_witness :
    release_if_stale 3 ⟨"R", ".lock-R", 1, none, none⟩ ⟨some ⟨0, none⟩⟩ =
      (true, ⟨none⟩) ∧
    acquire 3 99 ⟨"R", ".lock-R", 1, none, none⟩ ⟨some ⟨0, none⟩⟩ =
      (.ok ⟨"R", ".lock-R", 1, some 3, some 99⟩, ⟨some ⟨3, some 99⟩⟩) := by
  exact (stale_purge_before_acquire ⟨"R", ".lock-R", 1, none, none⟩
    ⟨some ⟨0, none⟩⟩ 3 99 ⟨0, none⟩ rfl).1 (by decide)

/-- Counterexample for C6: after acquiring and releasing resource R via the
context manager, the lock file for R still exists on disk (holder-free, with
the acquisition-time mtime) — `filelock`'s flock-based release does not
unlink the file, as the repository's own locking test records.  The claim's
conjunct "no lock file for R remains on disk" is therefore false at this
concrete input. -/
theorem lock_file_remains_after_roundtrip :
    ((withLock 0 42 ⟨"R", ".lock-R", 300, none, none⟩ ⟨none⟩
        (Except.ok () : Except Unit Unit)).2).file = some ⟨0, none⟩ ∧
    ¬ ((withLock 0 42 ⟨"R", ".lock-R", 300, none, none⟩ ⟨none⟩
        (Except.ok () : Except Unit Unit)).2).file = none := by
  constructor
  · rfl
  · intro h
    cases h

/-- C6 (amended): `acquire()` attempts the lock with the configured
`timeout_seconds`; when the flock is still held at expiry it raises
`LockTimeout` whose message names the resource id and the timeout value; on
success it records `acquired_at` and `owner_pid`; the lock is released on
every exit path of the protected section, including exceptions, and after
acquiring and releasing resource R the lock is no longer held and a
subsequent acquisition of R succeeds — though the lock file itself may remain
on disk. -/
theorem lock_acquire_release_contract (lock : ResourceLock) (fs : LockFs)
    (now : Int) (pid : Nat) :
    (∀ f q, fs.file = some f → f.holder = some q →
      now - f.mtime ≤ 2 * lock.timeout_seconds →
      acquire now pid lock fs =
        (.error (lockTimeoutMsg lock.resource_id lock.timeout_seconds), fs) ∧
      containsSub (lockTimeoutMsg lock.resource_id lock.timeout_seconds)
        lock.resource_id = true ∧
      containsSub (lockTimeoutMsg lock.resource_id lock.timeout_seconds)
        (toString lock.timeout_seconds) = true) ∧
    (∀ lock' fs', acquire now pid lock fs = (.ok lock', fs') →
      lock'.acquired_at = some now ∧ lock'.owner_pid = some pid) ∧
    (∀ (ε α : Type) (body : Except ε α), lockHeld fs = false →
      lockHeld (withLock now pid lock fs body).2 = false ∧
      ∀ (now2 : Int) (pid2 : Nat),
        acquire now2 pid2 lock (withLock now pid lock fs body).2 =
          (.ok { lock with acquired_at := some now2, owner_pid := some pid2 },
            ⟨some ⟨now2, some pid2⟩⟩)) := by
  refine ⟨?_, ?_, ?_⟩
  · intro f q hf hq hfresh
    obtain ⟨file⟩ := fs
    have hfile : file = some f := hf
    subst hfile
    have hnot : ¬ now - f.mtime > 2 * lock.timeout_seconds := not_lt.mpr hfresh
    refine ⟨?_, lockTimeoutMsg_contains_id _ _, lockTimeoutMsg_contains_timeout _ _⟩
    unfold acquire release_if_stale
    dsimp only
    rw [if_neg hnot]
    dsimp only
    rw [hq]
  · intro lock' fs' h
    obtain ⟨file⟩ := fs
    cases file with
    | none =>
      have h' : ((.ok { lock with acquired_at := some now, owner_pid := some pid },
          ⟨some ⟨now, some pid⟩⟩) : Except String ResourceLock × LockFs) =
          (.ok lock', fs') := h
      injection h' with h1 h2
      injection h1 with h1
      rw [← h1]
      exact ⟨rfl, rfl⟩
    | some f =>
      obtain ⟨m, holder⟩ := f
      revert h
      unfold acquire release_if_stale
      dsimp only
      by_cases hst : now - m > 2 * lock.timeout_seconds
      · rw [if_pos hst]
        dsimp only
        intro h
        injection h with h1 h2
        injection h1 with h1
        rw [← h1]
        exact ⟨rfl, rfl⟩
      · rw [if_neg hst]
        dsimp only
        cases holder with
        | some q =>
          intro h
          injection h with h1 h2
          cases h1
        | none =>
          intro h
          injection h with h1 h2
          injection h1 with h1
          rw [← h1]
          exact ⟨rfl, rfl⟩
  · intro ε α body h
    have ha := acquire_of_free now pid lock fs h
    have hfinal : (withLock now pid lock fs body).2 = ⟨some ⟨now, none⟩⟩ := by
      unfold withLock
      rw [ha]
      cases body <;> rfl
    rw [hfinal]
    exact ⟨rfl, fun now2 pid2 => acquire_of_free now2 pid2 lock _ rfl⟩

/-- Witness for C6: the theorem applied at a concrete held, fresh lock file —
the acquisition fails with the LockTimeout message naming resource "R" and
timeout 300 — and at a concrete free state for the release path. -/
theorem lock_acquire_release_contract_witness :
    acquire 100 42 ⟨"R", ".lock-R", 300, none, none⟩ ⟨some ⟨0, some 7⟩⟩ =
      (.error (lockTimeoutMsg "R" 300), ⟨some ⟨0, some 7⟩⟩) ∧
    containsSub (lockTimeoutMsg "R" 300) "R" = true ∧
    containsSub (lockTimeoutMsg "R" 300) (toString (300 : Int)) = true := by
  exact (lock_acquire_release_contract ⟨"R", ".lock-R", 300, none, none⟩
    ⟨some ⟨0, some 7⟩⟩ 100 42).1 ⟨0, some 7⟩ 7 rfl rfl (by decide)

/-- C3: for a WP with exactly one dependency `d`, `ensure_workspace` selects
`target_branch` as the workspace base when `d`'s lane is done; otherwise it
selects `d`'s own workspace branch as base, and fails with
`DependencyWorkspaceMissing` when that workspace does not exist. -/
theorem ensure_workspace_single_dep (env : WsEnv) (slug wpid d target : String) :
    (env.lane d = .done →
      ensure_workspace env slug wpid [d] target =
        .ok ⟨workspaceBranch slug wpid, target⟩) ∧
    (env.lane d ≠ .done → env.workspaceExists d = true →
      ensure_workspace env slug wpid [d] target =
        .ok ⟨workspaceBranch slug wpid, workspaceBranch slug d⟩) ∧
    (env.lane d ≠ .done → env.workspaceExists d = false →
      ensure_workspace env slug wpid [d] target =
        .error (.dependencyWorkspaceMissing d)) := by
  refine ⟨?_, ?_, ?_⟩
  · intro h
    simp [ensure_workspace, h]
  · intro h hw
    simp [ensure_workspace, h, hw]
  · intro h hw
    simp [ensure_workspace, h, hw]

/-- Witness for C3: the scenario of
`test_dependency_merged_uses_target_branch` — WP01 done, so WP02 bases on
the target branch — with each lane hypothesis discharged concretely. -/
theorem ensure_workspace_single_dep_witness :
    ensure_workspace ⟨fun _ => .done, fun _ => true⟩ "025" "WP02" ["WP01"]
        "main" = .ok ⟨"025-WP02", "main"⟩ ∧
    ensure_workspace ⟨fun _ => .doing, fun _ => false⟩ "025" "WP02" ["WP01"]
        "main" = .error (.dependencyWorkspaceMissing "WP01") := by
  constructor
  · exact (ensure_workspace_single_dep ⟨fun _ => .done, fun _ => true⟩
      "025" "WP02" "WP01" "main").1 rfl
  · exact (ensure_workspace_single_dep ⟨fun _ => .doing, fun _ => false⟩
      "025" "WP02" "WP01" "main").2.2 (by decide) rfl

theorem conflictFreePair_append_iff (b acc c : List (String × String)) :
    conflictFreePair b (acc ++ c) = true ↔
      conflictFreePair b acc = true ∧ conflictFreePair b c = true := by
  unfold conflictFreePair
  simp only [List.all_eq_true, List.mem_append]
  constructor
  · intro h
    exact ⟨fun x hx y hy => h x hx y (Or.inl hy),
      fun x hx y hy => h x hx y (Or.inr hy)⟩
  · rintro ⟨h1, h2⟩ x hx y hy
    cases hy with
    | inl hy => exact h1 x hx y hy
    | inr hy => exact h2 x hx y hy

theorem conflictFreePair_nil (b : List (String × String)) :
    conflictFreePair b [] = true := by
  unfold conflictFreePair
  simp

theorem mergeAll_isSome (bs : List (List (String × String))) :
    ∀ acc, (∀ b ∈ bs, conflictFreePair b acc = true) →
      bs.Pairwise (fun x y => conflictFreePair y x = true) →
      (mergeAll acc bs).isSome = true := by
  induction bs with
  | nil => intro acc _ _; rfl
  | cons b rest ih =>
    intro acc hall hpw
    have hb : conflictFreePair b acc = true := hall b (List.mem_cons_self _ _)
    have hrest : ∀ b2 ∈ rest, conflictFreePair b2 (acc ++ b) = true := by
      intro b2 hb2
      rw [conflictFreePair_append_iff]
      exact ⟨hall b2 (List.mem_cons_of_mem _ hb2),
        (List.pairwise_cons.mp hpw).1 b2 hb2⟩
    have hpw2 := (List.pairwise_cons.mp hpw).2
    show (mergeAll acc (b :: rest)).isSome = true
    unfold mergeAll mergeOne
    rw [if_pos hb]
    exact ih (acc ++ b) hrest hpw2

theorem emptyBranchWarning_contains (b : String) :
    containsSub (emptyBranchWarning b) b = true :=
  containsSub_of_middle "Dependency branch " b
    " has no commits beyond target — may indicate incomplete or uncommitted work; it contributes nothing to the merge"

theorem workspaceBranch_injective (slug : String) :
    Function.Injective (workspaceBranch slug) := by
  intro a b h
  apply string_ext
  have hd := congrArg String.data h
  rw [workspaceBranch, workspaceBranch, data_append, data_append] at hd
  exact List.append_cancel_left hd

theorem emptyBranchWarning_injective :
    Function.Injective emptyBranchWarning := by
  intro a b h
  apply string_ext
  have hd := congrArg String.data h
  rw [emptyBranchWarning, emptyBranchWarning, data_append, data_append,
    data_append, data_append] at hd
  exact List.append_cancel_left (List.append_cancel_right hd)

theorem create_multi_parent_base_eq_of_some (repo : RepoModel)
    (slug wpid : String) (deps : List String)
    (merged : List (String × String))
    (hm : mergeAll [] ((deps.map (workspaceBranch slug)).map repo.changes) =
      some merged) :
    create_multi_parent_base repo slug wpid deps =
      { branch_name := workspaceBranch slug wpid ++ "-merge-base",
        commit_sha := some (repo.commitSha merged),
        success := true, error := none,
        warnings := ((deps.map (workspaceBranch slug)).filter
          (emptyBranch repo)).map emptyBranchWarning } := by
  unfold create_multi_parent_base
  dsimp only
  rw [hm]

/-- C7: multi-parent merge-base creation over dependency branches succeeds
whenever the branches' change sets are pairwise conflict-free — commit-less
branches never cause failure — with `success = True`, the deterministic
branch name `{feature_slug}-{wp_id}-merge-base`, a commit sha, no error, and
the warning list holding exactly one entry per commit-less dependency
branch, each naming its branch; branches with commits produce no warning. -/
theorem create_multi_parent_base_empty_branch_warnings (repo : RepoModel)
    (slug wpid : String) (deps : List String)
    (hcompat : (deps.map
        (fun d => repo.changes (workspaceBranch slug d))).Pairwise
      (fun x y => conflictFreePair y x = true)) :
    (create_multi_parent_base repo slug wpid deps).success = true ∧
    (create_multi_parent_base repo slug wpid deps).branch_name =
      slug ++ "-" ++ wpid ++ "-merge-base" ∧
    (create_multi_parent_base repo slug wpid deps).commit_sha.isSome = true ∧
    (create_multi_parent_base repo slug wpid deps).error = none ∧
    (create_multi_parent_base repo slug wpid deps).warnings =
      ((deps.map (workspaceBranch slug)).filter (emptyBranch repo)).map
        emptyBranchWarning ∧
    (∀ w ∈ (create_multi_parent_base repo slug wpid deps).warnings,
      ∃ b ∈ deps.map (workspaceBranch slug),
        emptyBranch repo b = true ∧ containsSub w b = true) ∧
    (deps.Nodup → ∀ d ∈ deps,
      (create_multi_parent_base repo slug wpid deps).warnings.count
          (emptyBranchWarning (workspaceBranch slug d)) =
        if emptyBranch repo (workspaceBranch slug d) = true then 1 else 0) := by
  have hmap : (deps.map (workspaceBranch slug)).map repo.changes =
      deps.map (fun d => repo.changes (workspaceBranch slug d)) := by
    rw [List.map_map]
    rfl
  have hsome : (mergeAll []
      ((deps.map (workspaceBranch slug)).map repo.changes)).isSome = true := by
    rw [hmap]
    exact mergeAll_isSome _ [] (fun b _ => conflictFreePair_nil b) hcompat
  obtain ⟨merged, hm⟩ := Option.isSome_iff_exists.mp hsome
  have heq := create_multi_parent_base_eq_of_some repo slug wpid deps merged hm
  rw [heq]
  refine ⟨rfl, rfl, rfl, rfl, rfl, ?_, ?_⟩
  · intro w hw
    obtain ⟨b, hb, hwb⟩ := List.mem_map.mp hw
    have hb2 := List.mem_filter.mp hb
    refine ⟨b, hb2.1, hb2.2, ?_⟩
    rw [← hwb]
    exact emptyBranchWarning_contains b
  · intro hnodup d hd
    have hnd1 : (deps.map (workspaceBranch slug)).Nodup :=
      hnodup.map (workspaceBranch_injective slug)
    have hnd2 : ((deps.map (workspaceBranch slug)).filter
        (emptyBranch repo)).Nodup := hnd1.filter _
    have hnd3 : (((deps.map (workspaceBranch slug)).filter
        (emptyBranch repo)).map emptyBranchWarning).Nodup :=
      hnd2.map emptyBranchWarning_injective
    by_cases he : emptyBranch repo (workspaceBranch slug d) = true
    · rw [if_pos he]
      apply List.count_eq_one_of_mem hnd3
      exact List.mem_map_of_mem _ (List.mem_filter.mpr
        ⟨List.mem_map_of_mem _ hd, he⟩)
    · rw [if_neg he]
      apply List.count_eq_zero_of_not_mem
      intro hmem
      obtain ⟨b', hb', hwb⟩ := List.mem_map.mp hmem
      have hbb : b' = workspaceBranch slug d := emptyBranchWarning_injective hwb
      rw [hbb] at hb'
      exact he (List.mem_filter.mp hb').2

/-- Witness for C7: the scenario of `test_empty_branch_merge_still_succeeds`
— dependency WP01's branch has no commits beyond target, WP02's does — with
the pairwise-compatibility hypothesis discharged concretely: the merge
succeeds with the expected branch name and exactly one warning, naming the
empty branch. -/
theorem create_multi_parent_base_empty_branch_warnings_witness :
    (create_multi_parent_base
      ⟨fun b => if b = "017-feature-WP02" then [("wp02.txt", "WP02 work")]
        else [], fun _ => "sha"⟩
      "017-feature" "WP03" ["WP01", "WP02"]).success = true ∧
    (create_multi_parent_base
      ⟨fun b => if b = "017-feature-WP02" then [("wp02.txt", "WP02 work")]
        else [], fun _ => "sha"⟩
      "017-feature" "WP03" ["WP01", "WP02"]).branch_name =
        "017-feature-WP03-merge-base" ∧
    (create_multi_parent_base
      ⟨fun b => if b = "017-feature-WP02" then [("wp02.txt", "WP02 work")]
        else [], fun _ => "sha"⟩
      "017-feature" "WP03" ["WP01", "WP02"]).warnings =
        [emptyBranchWarning "017-feature-WP01"] := by
  have h := create_multi_parent_base_empty_branch_warnings
    ⟨fun b => if b = "017-feature-WP02" then [("wp02.txt", "WP02 work")]
      else [], fun _ => "sha"⟩
    "017-feature" "WP03" ["WP01", "WP02"] (by decide)
  refine ⟨h.1, h.2.1.trans (by rfl), h.2.2.2.2.1.trans (by decide)⟩

theorem splitSlash_cons (c : Char) (cs : List Char) :
    splitSlash (c :: cs) = splitStep c (splitSlash cs) := rfl

theorem splitSlash_ne_nil (cs : List Char) : splitSlash cs ≠ [] := by
  induction cs with
  | nil => intro h; cases h
  | cons c t ih =>
    rw [splitSlash_cons]
    cases hsr : splitSlash t with
    | nil => simp [splitStep]
    | cons a as =>
      simp only [splitStep]
      split <;> simp

theorem splitSlash_no_slash (p : List Char) (h : ('/' : Char) ∉ p) :
    splitSlash p = [p] := by
  induction p with
  | nil => rfl
  | cons c t ih =>
    have hc : ¬ c = '/' := fun he => h (he ▸ List.mem_cons_self c t)
    have ht : ('/' : Char) ∉ t := fun hm => h (List.mem_cons_of_mem _ hm)
    rw [splitSlash_cons, ih ht]
    simp only [splitStep]
    rw [if_neg hc]

theorem splitSlash_append (p rest : List Char) (h : ('/' : Char) ∉ p) :
    splitSlash (p ++ '/' :: rest) = p :: splitSlash rest := by
  induction p with
  | nil =>
    show splitSlash ('/' :: rest) = [] :: splitSlash rest
    rw [splitSlash_cons]
    cases hsr : splitSlash rest with
    | nil => exact absurd hsr (splitSlash_ne_nil rest)
    | cons a as =>
      simp [splitStep]
  | cons c t ih =>
    have hc : ¬ c = '/' := fun he => h (he ▸ List.mem_cons_self c _)
    have ht : ('/' : Char) ∉ t := fun hm => h (List.mem_cons_of_mem _ hm)
    show splitSlash (c :: (t ++ '/' :: rest)) = (c :: t) :: splitSlash rest
    rw [splitSlash_cons, ih ht]
    simp only [splitStep]
    rw [if_neg hc]

theorem split_join (ps : List (List Char)) (h : ∀ p ∈ ps, ('/' : Char) ∉ p)
    (hne : ps ≠ []) : splitSlash (joinSlash ps) = ps := by
  induction ps with
  | nil => exact absurd rfl hne
  | cons p rest ih =>
    cases rest with
    | nil =>
      show splitSlash p = [p]
      exact splitSlash_no_slash p (h p (List.mem_cons_self _ _))
    | cons q rs =>
      show splitSlash (p ++ '/' :: joinSlash (q :: rs)) = p :: q :: rs
      rw [splitSlash_append _ _ (h p (List.mem_cons_self _ _))]
      rw [ih (fun x hx => h x (List.mem_cons_of_mem _ hx)) (by simp)]

theorem joinSlash_cons_ne_nil (a : List Char) (rest : List (List Char))
    (ha : a ≠ []) :
    ∃ c t, joinSlash (a :: rest) = c :: t ∧ c ∈ a := by
  cases a with
  | nil => exact absurd rfl ha
  | cons c t0 =>
    cases rest with
    | nil => exact ⟨c, t0, rfl, List.mem_cons_self _ _⟩
    | cons q rs =>
      exact ⟨c, t0 ++ '/' :: joinSlash (q :: rs), rfl, List.mem_cons_self _ _⟩

theorem map_mk_map_data (l : List String) :
    ((l.map String.data).map (fun cs => (⟨cs⟩ : String))) = l := by
  induction l with
  | nil => rfl
  | cons a t ih =>
    show (⟨a.data⟩ : String) :: (t.map String.data).map _ = a :: t
    rw [ih]

theorem validPart_spec {s : String} (h : validPart s = true) :
    ¬ s = "" ∧ ¬ s = "." ∧ ('/' : Char) ∉ s.data := by
  simpa [validPart, and_assoc] using h

theorem filter_valid (l : List String) (h : l.all validPart = true) :
    l.filter (fun c => c != "" && c != ".") = l := by
  apply List.filter_eq_self.mpr
  intro a ha
  have hv := validPart_spec (List.all_eq_true.mp h a ha)
  simp only [Bool.and_eq_true, bne_iff_ne, ne_eq]
  exact ⟨hv.1, hv.2.1⟩

/-- On every well-formed path value — which all `pathlib` values are —
`Path(str(p))` reparses to `p` itself. -/
theorem pathOfString_strOfPath (p : PyPath) (h : pathWF p = true) :
    pathOfString (strOfPath p) = p := by
  obtain ⟨abs, parts⟩ := p
  cases parts with
  | nil =>
    cases abs with
    | false => rfl
    | true => rfl
  | cons a rest =>
    have hvalid : ∀ x ∈ a :: rest, validPart x = true := List.all_eq_true.mp h
    have hnoslash : ∀ x ∈ (a :: rest).map String.data, ('/' : Char) ∉ x := by
      intro x hx
      obtain ⟨s, hs, hxs⟩ := List.mem_map.mp hx
      rw [← hxs]
      exact (validPart_spec (hvalid s hs)).2.2
    have hjoin : splitSlash (joinSlash ((a :: rest).map String.data)) =
        (a :: rest).map String.data := split_join _ hnoslash (by simp)
    have hadata : a.data ≠ [] := by
      intro he
      exact (validPart_spec (hvalid a (List.mem_cons_self _ _))).1
        (string_ext he)
    obtain ⟨c, t, hjh0, hcmem⟩ :=
      joinSlash_cons_ne_nil a.data (rest.map String.data) hadata
    have hjh : joinSlash ((a :: rest).map String.data) = c :: t := by
      rw [List.map_cons]
      exact hjh0
    have hcne : ¬ c = '/' := fun he =>
      hnoslash a.data (List.mem_map_of_mem _ (List.mem_cons_self _ _))
        (he ▸ hcmem)
    have hparts : (((splitSlash (joinSlash ((a :: rest).map String.data))).map
        (fun cs => (⟨cs⟩ : String))).filter
          (fun c => c != "" && c != ".")) = a :: rest := by
      rw [hjoin, map_mk_map_data]
      exact filter_valid _ h
    cases abs with
    | false =>
      show pathOfString ⟨joinSlash ((a :: rest).map String.data)⟩ =
        ⟨false, a :: rest⟩
      unfold pathOfString
      refine congrArg₂ PyPath.mk ?_ ?_
      · show (match (⟨joinSlash ((a :: rest).map String.data)⟩ : String).data
            with
          | c :: _ => decide (c = '/')
          | [] => false) = false
        rw [show (⟨joinSlash ((a :: rest).map String.data)⟩ : String).data =
          c :: t from hjh]
        simp [hcne]
      · exact hparts
    | true =>
      show pathOfString ("/" ++ ⟨joinSlash ((a :: rest).map String.data)⟩) =
        ⟨true, a :: rest⟩
      have hdata : ("/" ++ (⟨joinSlash ((a :: rest).map String.data)⟩ :
          String)).data = '/' :: joinSlash ((a :: rest).map String.data) := rfl
      unfold pathOfString
      refine congrArg₂ PyPath.mk ?_ ?_
      · rw [hdata]
        rfl
      · rw [hdata, splitSlash_cons]
        have hsplit : splitSlash (joinSlash ((a :: rest).map String.data)) =
            a.data :: rest.map String.data := by
          rw [hjoin, List.map_cons]
        rw [hsplit]
        show ((([] : List Char) :: a.data :: rest.map String.data).map
          (fun cs => (⟨cs⟩ : String))).filter
            (fun c => c != "" && c != ".") = a :: rest
        rw [List.map_cons]
        show ((("" : String) :: ((a.data :: rest.map String.data).map
          (fun cs => (⟨cs⟩ : String)))).filter
            (fun c => c != "" && c != ".")) = a :: rest
        rw [List.filter_cons_of_neg (by simp)]
        have : a.data :: rest.map String.data =
            (a :: rest).map String.data := by rw [List.map_cons]
        rw [this, map_mk_map_data]
        exact filter_valid _ h

theorem strListOf_map (l : List String) :
    strListOf (l.map JVal.jstr) = some l := by
  induction l with
  | nil => rfl
  | cons a t ih =>
    show (strListOf (t.map JVal.jstr)).map (fun l => a :: l) = some (a :: t)
    rw [ih]
    rfl

/-- C9: deserializing a serialized `ConversationState` round-trips —
`from_json(to_json(s))` recovers `s` in every field, with `project_path`
converted to a string and parsed back to an equal `Path`.  The
well-formedness hypothesis holds of every `pathlib` path value. -/
theorem conversation_state_roundtrip (s : ConversationState)
    (h : pathWF s.project_path = true) :
    from_json (to_json s) = .ok s := by
  obtain ⟨sid, pp, wf, ph, qa, qp, ac, ca, ua⟩ := s
  have h1 : pathOfString (strOfPath pp) = pp := pathOfString_strOfPath pp h
  have h2 : strListOf (qp.map JVal.jstr) = some qp := strListOf_map qp
  simp [to_json, from_json, lookupKey, h1, h2]

/-- Witness for C9: the theorem applied to a concrete state with a concrete
two-component relative project path, its well-formedness hypothesis
discharged by evaluation. -/
theorem conversation_state_roundtrip_witness :
    from_json (to_json ⟨"sid-1", ⟨false, ["home", "proj"]⟩, "specify",
      "discovery", [("q1", .jstr "a1")], ["q2", "q3"], [],
      "2025-01-01T00:00:00+00:00", "2025-01-02T00:00:00+00:00"⟩) =
      .ok ⟨"sid-1", ⟨false, ["home", "proj"]⟩, "specify",
        "discovery", [("q1", .jstr "a1")], ["q2", "q3"], [],
        "2025-01-01T00:00:00+00:00", "2025-01-02T00:00:00+00:00"⟩ :=
  conversation_state_roundtrip _ (by decide)

/-- Witness for C2: the scenario of `test_max_retries_prevents_infinite_loop`
— a WP with five retries at the default limit of five becomes FAILED and
stays out of the ready set after three further scheduler steps. -/
theorem max_review_cycles_terminal_witness :
    (reworkTransition 5 "fb" ⟨"WP01", .rework, 5, some "old", none⟩).status =
      .failed ∧
    "WP01" ∉ get_ready_wps [("WP01", [])]
      (iterRun [("WP01", [])] (fun _ => .approve) 5 3
        ⟨"test", "test-feature", fun k =>
          if k = "WP01" then
            some (reworkTransition 5 "fb" ⟨"WP01", .rework, 5, some "old", none⟩)
          else none⟩) := by
  have h := max_review_cycles_terminal 5 "fb"
    ⟨"WP01", .rework, 5, some "old", none⟩ (by decide)
  have h4 := h.2.2.2 [("WP01", [])] (fun _ => .approve)
    ⟨"test", "test-feature", fun k =>
      if k = "WP01" then
        some (reworkTransition 5 "fb" ⟨"WP01", .rework, 5, some "old", none⟩)
      else none⟩ "WP01" 3 (by simp)
  exact ⟨h.1, h4.2⟩

/-- C4: `parse_review_outcome` classifies agent output by case-insensitive
substring match with approval markers checked before rejection markers; with
no matching marker, exit code 0 yields `approved` and any non-zero exit code
yields `error`, never `rejected`; and every `rejected` classification carries
non-empty feedback equal to the agent's raw output.  The function is pure, so
nothing is mutated. -/
theorem parse_review_outcome_characterization (r : InvocationResult) :
    (hasApprovalMarker r = true →
      parse_review_outcome r = ⟨.approved, none⟩) ∧
    (hasApprovalMarker r = false → hasRejectionMarker r = true →
      parse_review_outcome r = ⟨.rejected, some r.stdout⟩ ∧ r.stdout ≠ "") ∧
    (hasApprovalMarker r = false → hasRejectionMarker r = false →
      r.exit_code = 0 → parse_review_outcome r = ⟨.approved, none⟩) ∧
    (hasApprovalMarker r = false → hasRejectionMarker r = false →
      r.exit_code ≠ 0 → parse_review_outcome r = ⟨.errorOutcome, none⟩) := by
  refine ⟨?_, ?_, ?_, ?_⟩
  · intro ha
    simp [parse_review_outcome, ha]
  · intro ha hr
    refine ⟨by simp [parse_review_outcome, ha, hr], ?_⟩
    obtain ⟨m, hm, hsub⟩ := List.any_eq_true.mp hr
    rw [containsSub_iff] at hsub
    intro he
    rw [he] at hsub
    have hnil : m.data = [] := by
      have : (lowerStr "").data = [] := rfl
      rw [this] at hsub
      exact List.eq_nil_of_infix_nil hsub
    exact rejection_markers_nonempty m hm hnil
  · intro ha hr hc
    simp [parse_review_outcome, ha, hr, hc]
  · intro ha hr hc
    simp [parse_review_outcome, ha, hr, hc]

/-- Witness for C4: the theorem applied to the concrete rejected output of
the repository's own test, discharging both marker hypotheses. -/
theorem parse_review_outcome_characterization_witness :
    parse_review_outcome ⟨1, "REJECTED - missing error handling", ""⟩ =
      ⟨.rejected, some "REJECTED - missing error handling"⟩ ∧
    "REJECTED - missing error handling" ≠ "" := by
  have h := (parse_review_outcome_characterization
    ⟨1, "REJECTED - missing error handling", ""⟩).2.1 (by decide) (by decide)
  exact h

/-- Witness for C8: the theorem applied at a concrete failing step and a
concrete prior state, discharging the hypotheses there. -/
theorem atomic_write_atomicity_witness :
    (atomic_write "new" .atReplace ⟨some "old", none⟩).1 = .error () ∧
    (atomic_write "new" .atReplace ⟨some "old", none⟩).2.target = some "old" := by
  have h := (atomic_write_atomicity "new" .atReplace ⟨some "old", none⟩ rfl).2
    (by decide)
  exact ⟨h.1, h.2.1⟩

end SpecKitty
